import Mathlib

/-!
Verification development for the beamview repository: a shallow embedding of
the render-ahead page cache, region splitter and presentation controller found
in the C sources, together with theorems settling the specification's claims.

The repository contains several independent implementations of the same
design; each is embedded separately:
* `beamview.c`           — sliding-window cache (`prev`/`cur`/`next`), SDL.
* `src/unnamed/part_000` — 3-slot ring cache tagged by page number, SDL.
* `src/unnamed/part_001` — full-table cache with a fill cursor, SDL.
* `src/unnamed/part_002` — full-table cache with a complete flag, GLFW.

Rendering itself is an external collaborator (poppler/cairo); a rendered
artifact is modelled abstractly as the pair (page index, scale) it was
produced from, which is all the cache logic inspects.  Floating-point scales
are modelled as rationals; machine ints used for page indices and pixel
counts are modelled as ℕ/ℤ (all values involved are small and non-negative
in the program, no overflow occurs on the modelled paths).
-/

set_option maxHeartbeats 1000000

namespace Beamview

/-- Abstract rendered page artifact: stands for the cairo surface produced by
`render_page_to_cairo_surface(page, scale)`.  The renderer is deterministic
(spec §7), so the pair (page, scale) identifies the artifact. -/
structure Surface where
  page : ℕ
  scale : ℚ
deriving DecidableEq

/-- Navigation direction (LEFT/UP/PAGEUP vs RIGHT/DOWN/PAGEDOWN keys). -/
inductive Dir
  | prev
  | next
deriving DecidableEq

/-- Clamped navigation target, common to every variant's key handler:
`if (key is prev && current_page > 0) new_page = current_page - 1;
 else if (key is next && current_page < num_pages - 1) new_page = current_page + 1;`. -/
def clamp_nav (current num_pages : ℕ) (d : Dir) : ℕ :=
  match d with
  | Dir.prev => if 0 < current then current - 1 else current
  | Dir.next => if current < num_pages - 1 then current + 1 else current

/-! ## Region splitter

From `part_002` `create_cache_entry` (and `update_window_textures` in
`part_000`/`part_001`):
`int base_split = img_width / num_ctx;`
`int offset = i * base_split;`
`int region_size = (i == num_ctx - 1) ? (img_width - base_split * i) : base_split;`
`beamview.c` is the `n = 2` instance (`left_width = img_width / 2;
right_width = img_width - left_width;`). -/

def base_split (full_length n : ℕ) : ℕ := full_length / n

def region_offset (full_length n i : ℕ) : ℕ := i * base_split full_length n

def region_size (full_length n i : ℕ) : ℕ :=
  if i = n - 1 then full_length - base_split full_length n * i
  else base_split full_length n

/-! ## Ring cache (`part_000`)

`struct bv_cache_entry` has fields `cairo_surface`, `img_width`, `img_height`,
`page_width`, `page_height`, `page_number`; everything except the tag
`page_number` describes the rendered artifact, which we abstract as
`Option Surface`. -/

/-- `static const int page_number_invalid = -1;` -/
def page_number_invalid : ℤ := -1

/-- One slot of the 3-entry ring (`struct bv_cache_entry`). -/
structure RingSlot where
  page_number : ℤ
  cairo_surface : Option Surface
deriving DecidableEq

/-- `invalidate_cache_slot`: zero the slot and set the invalid tag. -/
def invalid_slot : RingSlot :=
  { page_number := page_number_invalid, cairo_surface := none }

/-- `struct bv_cache { struct bv_cache_entry entries[CACHE_SIZE]; ... }` with
`CACHE_SIZE = 3`. -/
def RingCache := Fin 3 → RingSlot

/-- `cache_slot`: `&cache->entries[page % CACHE_SIZE]`. -/
def cache_slot (page : ℕ) : Fin 3 := ⟨page % 3, Nat.mod_lt _ (by norm_num)⟩

/-- All slots invalid, as set up by `init_prog_state`. -/
def ring_init : RingCache := fun _ => invalid_slot

/-- Write one slot of the ring. -/
def ring_set (c : RingCache) (i : Fin 3) (v : RingSlot) : RingCache :=
  fun j => if j = i then v else c j

/-- Lookup with the collision tag check: a slot whose `page_number` differs
from the requested page is a miss (`slot->page_number == page_index` is the
hit test used throughout `part_000`). -/
def ring_lookup (c : RingCache) (p : ℕ) : Option RingSlot :=
  if (c (cache_slot p)).page_number = (p : ℤ) then some (c (cache_slot p)) else none

/-- The cache effect of `page_cache_update`: reuse on tag match, otherwise
render the page at the given scale into the slot (replacing whatever was
there) and tag it. -/
def ring_fill (c : RingCache) (p : ℕ) (scale : ℚ) : RingCache :=
  if (c (cache_slot p)).page_number = (p : ℤ) then c
  else
    let slot : RingSlot :=
      { page_number := (p : ℤ), cairo_surface := some { page := p, scale := scale } }
    ring_set c (cache_slot p) slot

/-- A sequence of `fill` operations applied from the freshly initialised
(or freshly invalidated) ring. -/
def ring_run (ops : List (ℕ × ℚ)) : RingCache :=
  ops.foldl (fun c pq => ring_fill c pq.1 pq.2) ring_init

/-- `struct bv_prog_state` (the parts the cache logic touches). -/
structure RingState where
  cache : RingCache
  complete : Bool
  current_page : ℕ
  num_pages : ℕ
  current_scale : ℚ
  needs_redraw : Bool

/-- `update_cache_status`: the ring variant's "neighbors ready" report.
The `curr == 0` / `curr == num_pages - 1` disjuncts short-circuit exactly as
the C `||` does. -/
def update_cache_status (s : RingState) : RingState :=
  let curr := s.current_page
  { s with complete :=
      ((curr == 0) ||
        ((s.cache (cache_slot (curr - 1))).page_number == (curr : ℤ) - 1)) &&
      ((curr == s.num_pages - 1) ||
        ((s.cache (cache_slot (curr + 1))).page_number == (curr : ℤ) + 1)) }

/-- `enum cache_result`. -/
inductive CacheResult
  | updated
  | reused
deriving DecidableEq

/-- `page_cache_update`: the ring variant's `fill`.  Returns `CACHE_REUSED`
without touching anything when the slot already holds this exact page;
otherwise renders (one render call), stores the entry and refreshes the
complete flag. -/
def page_cache_update (s : RingState) (page_index : ℕ) : RingState × CacheResult :=
  if (s.cache (cache_slot page_index)).page_number = (page_index : ℤ) then
    (s, CacheResult.reused)
  else
    let slot : RingSlot :=
      { page_number := (page_index : ℤ),
        cairo_surface := some { page := page_index, scale := s.current_scale } }
    (update_cache_status { s with cache := ring_set s.cache (cache_slot page_index) slot },
     CacheResult.updated)

/-- Render-call count of one `page_cache_update` outcome. -/
def pcu_renders (r : CacheResult) : ℕ :=
  match r with
  | CacheResult.updated => 1
  | CacheResult.reused => 0

/-- One `page_cache_update` call together with the page it rendered (if
any): `CACHE_UPDATED` means exactly one render of that page happened. -/
def pcu_step (s : RingState) (p : ℕ) : RingState × List ℕ :=
  match page_cache_update s p with
  | (t, CacheResult.updated) => (t, [p])
  | (t, CacheResult.reused) => (t, [])

/-- `idle_update_cache`: if not complete, fill the predecessor (when one
exists) and then the successor (when one exists).  Returns the list of pages
actually rendered. -/
def idle_update_cache (s : RingState) : RingState × List ℕ :=
  if s.complete then (s, [])
  else
    let step1 : RingState × List ℕ :=
      if 0 < s.current_page then pcu_step s (s.current_page - 1) else (s, [])
    let step2 : RingState × List ℕ :=
      if s.current_page < s.num_pages - 1 then
        pcu_step step1.1 (s.current_page + 1)
      else (step1.1, [])
    (step2.1, step1.2 ++ step2.2)

/-- `part_000`'s `update_scale`: NOTE — unlike the other variants it applies
no tolerance check.  It unconditionally stores the recomputed scale (passed
in here, since it derives from external window sizes), invalidates every
slot, synchronously refills the current page and marks the redraw flag. -/
def update_scale_ring (s : RingState) (new_scale : ℚ) : RingState × List ℕ :=
  let s1 : RingState :=
    { s with current_scale := new_scale, cache := fun _ => invalid_slot }
  let r := pcu_step s1 s1.current_page
  ({ r.1 with needs_redraw := true }, r.2)

/-- `part_000`'s `key_handler`, navigation branch.  Returns the new state,
the pages rendered, and the number of warnings printed ("Warning: Page %d
uncached, performed blocking render.").  Mirrors the C order: the fill runs
before `current_page` is reassigned, then `update_cache_status`, then the
redraw flag. -/
def key_handler_ring (s : RingState) (d : Dir) : RingState × List ℕ × ℕ :=
  let new_page := clamp_nav s.current_page s.num_pages d
  if new_page = s.current_page then (s, [], 0)
  else
    match page_cache_update s new_page with
    | (t, CacheResult.updated) =>
        (update_cache_status
          { t with current_page := new_page, needs_redraw := true }, [new_page], 1)
    | (t, CacheResult.reused) =>
        (update_cache_status
          { t with current_page := new_page, needs_redraw := true }, [], 0)

/-! ## Full-table cache with fill cursor (`part_001`)

`struct render_cache_entry **cache_entries` is an array of `num_pages`
nullable pointers, modelled as a `List (Option Surface)` whose length is the
page count; `next_cache_index` is the background-fill cursor. -/

structure TableState where
  cache_entries : List (Option Surface)
  next_cache_index : ℕ
  current_page : ℕ
  current_scale : ℚ
  needs_redraw : Bool
deriving DecidableEq

/-- `cache_entries[p]` (null both for an empty slot and out of range). -/
def tget (s : TableState) (p : ℕ) : Option Surface := s.cache_entries[p]?.join

/-- `cache_complete`: `next_cache_index == num_pages`. -/
def table_complete (s : TableState) : Bool :=
  s.next_cache_index == s.cache_entries.length

/-- The `while (i < num_pages && cache_entries[i]) i++;` scan: number of
consecutive non-null entries at the head of the list. -/
def scan_tail : List (Option Surface) → ℕ
  | [] => 0
  | none :: _ => 0
  | some _ :: rest => scan_tail rest + 1

/-- First index `≥ i` holding a null entry (or past the end), as computed by
the scan loop starting from `i`. -/
def scan_next (l : List (Option Surface)) (i : ℕ) : ℕ := i + scan_tail (l.drop i)

/-- `part_001`'s `cache_one_slide`: at most one render per invocation, chosen
as the first uncached page at or after the cursor; the cursor only advances
when a render happened. -/
def cache_one_slide (s : TableState) : TableState × List ℕ :=
  if table_complete s then (s, [])
  else
    let i := scan_next s.cache_entries s.next_cache_index
    if i < s.cache_entries.length then
      ({ s with
          cache_entries := s.cache_entries.set i (some { page := i, scale := s.current_scale }),
          next_cache_index := i + 1 }, [i])
    else (s, [])

/-- `part_001`'s `update_scale` (resize path): proceed only when the
recomputed scale differs from the current one by more than `0.01`; then free
every entry, reset the cursor, synchronously refill the current page at the
new scale and mark the redraw flag. -/
def update_scale_table (s : TableState) (new_scale : ℚ) : TableState × List ℕ :=
  if |new_scale - s.current_scale| > 1/100 then
    ({ cache_entries :=
         (List.replicate s.cache_entries.length (none : Option Surface)).set
           s.current_page (some { page := s.current_page, scale := new_scale }),
       next_cache_index := 0,
       current_page := s.current_page,
       current_scale := new_scale,
       needs_redraw := true }, [s.current_page])
  else (s, [])

/-- `part_001`'s `key_handler`, navigation branch: on a cache miss print the
blocking-render warning and fill synchronously; either way move to the target
and mark the redraw flag.  Returns (state, pages rendered, warnings). -/
def key_handler_table (s : TableState) (d : Dir) : TableState × List ℕ × ℕ :=
  let new_page := clamp_nav s.current_page s.cache_entries.length d
  if new_page = s.current_page then (s, [], 0)
  else if (tget s new_page).isSome then
    ({ s with current_page := new_page, needs_redraw := true }, [], 0)
  else
    ({ s with
        cache_entries := s.cache_entries.set new_page
          (some { page := new_page, scale := s.current_scale }),
        current_page := new_page,
        needs_redraw := true }, [new_page], 1)

/-! ## Full-table cache with complete flag (`part_002`) -/

structure T2State where
  cache_entries : List (Option Surface)
  cache_complete : Bool
  current_page : ℕ
  current_scale : ℚ
deriving DecidableEq

/-- `cache_entries[p]` for `part_002`. -/
def t2get (s : T2State) (p : ℕ) : Option Surface := s.cache_entries[p]?.join

/-- Index of the first null entry, scanning from page 0 as the C loop does. -/
def find_missing : List (Option Surface) → Option ℕ
  | [] => none
  | none :: _ => some 0
  | some _ :: rest => (find_missing rest).map (· + 1)

/-- Number of uncached pages. -/
def missing2 (s : T2State) : ℕ := s.cache_entries.countP (fun o => o.isNone)

/-- `part_002`'s `cache_one_slide`: render the first missing page (one per
idle cycle); when none is missing, report "Caching complete." and latch the
flag. -/
def cache_one_slide2 (s : T2State) : T2State × List ℕ :=
  if s.cache_complete then (s, [])
  else
    match find_missing s.cache_entries with
    | some i =>
        ({ s with
            cache_entries := s.cache_entries.set i (some { page := i, scale := s.current_scale }),
            cache_complete := false }, [i])
    | none => ({ s with cache_complete := true }, [])

/-- Iterated idle fill (`cache_one_slide` called once per idle tick). -/
def iter2 : ℕ → T2State → T2State
  | 0, s => s
  | n + 1, s => iter2 n (cache_one_slide2 s).1

/-- `part_002`'s `update_scale`: tolerance-checked full invalidation plus a
synchronous refill of the current page (no redraw flag exists in this
variant). -/
def update_scale2 (s : T2State) (new_scale : ℚ) : T2State × List ℕ :=
  if |new_scale - s.current_scale| > 1/100 then
    ({ cache_entries :=
         (List.replicate s.cache_entries.length (none : Option Surface)).set
           s.current_page (some { page := s.current_page, scale := new_scale }),
       cache_complete := false,
       current_page := s.current_page,
       current_scale := new_scale }, [s.current_page])
  else (s, [])

/-- `part_002`'s `key_callback`, navigation branch (no redraw flag). -/
def key_callback2 (s : T2State) (d : Dir) : T2State × List ℕ × ℕ :=
  let new_page := clamp_nav s.current_page s.cache_entries.length d
  if new_page = s.current_page then (s, [], 0)
  else if (t2get s new_page).isSome then
    ({ s with current_page := new_page }, [], 0)
  else
    ({ s with
        cache_entries := s.cache_entries.set new_page
          (some { page := new_page, scale := s.current_scale }),
        current_page := new_page }, [new_page], 1)

/-! ## Sliding-window cache (`beamview.c`) -/

/-- `struct render_cache_entry` of `beamview.c`: `page_index` plus the two
half textures; the textures are the rendered artifact, abstracted to the
(page, scale) pair that produced them. -/
structure WEntry where
  page_index : ℕ
  scale : ℚ
deriving DecidableEq

/-- `struct render_cache { prev; cur; next; }`, slots nullable. -/
structure RenderCache where
  prev : Option WEntry
  cur : Option WEntry
  next : Option WEntry
deriving DecidableEq

/-- `create_cache_entry` (success path; render failure aborts the update and
is fatal per spec §7, so the embedding models the successful render). -/
def create_cache_entry_w (p : ℕ) (scale : ℚ) : WEntry := { page_index := p, scale := scale }

/-- `init_cache_for_page`: free all three slots, then synchronously render
the requested page into `cur`. -/
def init_cache_for_page (p : ℕ) (scale : ℚ) : RenderCache × List ℕ :=
  ({ prev := none, cur := some (create_cache_entry_w p scale), next := none }, [p])

/-- Does this (nullable) slot hold an entry for page `p`? -/
def entry_is (o : Option WEntry) (p : ℕ) : Bool :=
  match o with
  | some e => e.page_index == p
  | none => false

/-- `beamview.c`'s `update_cache` (idle neighbour fill): when `cur` exists,
render the missing predecessor and/or the missing successor — up to two
render calls in one invocation. -/
def update_cache_w (c : RenderCache) (current_page num_pages : ℕ) (scale : ℚ) :
    RenderCache × List ℕ :=
  if c.cur = none then (c, [])
  else
    let fill_prev : Option WEntry × List ℕ :=
      if 0 < current_page ∧ c.prev = none then
        (some (create_cache_entry_w (current_page - 1) scale), [current_page - 1])
      else (c.prev, [])
    let fill_next : Option WEntry × List ℕ :=
      if current_page < num_pages - 1 ∧ c.next = none then
        (some (create_cache_entry_w (current_page + 1) scale), [current_page + 1])
      else (c.next, [])
    ({ prev := fill_prev.1, cur := c.cur, next := fill_next.1 },
     fill_prev.2 ++ fill_next.2)

/-- `update_cache_on_page_change`: shift the window when the target is a
cached neighbour, otherwise warn and reinitialise around the target (one
synchronous render). -/
def update_cache_on_page_change (c : RenderCache) (new_page : ℕ) (scale : ℚ) :
    RenderCache × List ℕ :=
  if entry_is c.cur new_page then (c, [])
  else if entry_is c.next new_page then
    ({ prev := c.cur, cur := c.next, next := none }, [])
  else if entry_is c.prev new_page then
    ({ prev := none, cur := c.prev, next := c.cur }, [])
  else init_cache_for_page new_page scale

/-- The controller state of `beamview.c`'s event loop. -/
structure WinState where
  cache : RenderCache
  current_page : ℕ
  num_pages : ℕ
  current_scale : ℚ
deriving DecidableEq

/-- Navigation in `handle_sdl_events`: clamp; when the page actually changes,
set `current_page` and update the cache window. -/
def bv_nav (s : WinState) (d : Dir) : WinState × List ℕ :=
  let new_page := clamp_nav s.current_page s.num_pages d
  if new_page = s.current_page then (s, [])
  else
    let step := update_cache_on_page_change s.cache new_page s.current_scale
    ({ s with current_page := new_page, cache := step.1 }, step.2)

/-- Resize in `handle_sdl_events`: tolerance-checked; on a real change,
store the scale and rebuild the cache around the current page. -/
def bv_resize (s : WinState) (new_scale : ℚ) : WinState × List ℕ :=
  if |new_scale - s.current_scale| > 1/100 then
    let step := init_cache_for_page s.current_page new_scale
    ({ s with current_scale := new_scale, cache := step.1 }, step.2)
  else (s, [])

/-- Idle neighbour fill applied to the controller state. -/
def bv_idle (s : WinState) : WinState × List ℕ :=
  let step := update_cache_w s.cache s.current_page s.num_pages s.current_scale
  ({ s with cache := step.1 }, step.2)

/-- The operations the event loop performs on the window cache. -/
inductive WOp
  | navPrev
  | navNext
  | resize (ns : ℚ)
  | idle
deriving DecidableEq

def w_step (s : WinState) (op : WOp) : WinState × List ℕ :=
  match op with
  | WOp.navPrev => bv_nav s Dir.prev
  | WOp.navNext => bv_nav s Dir.next
  | WOp.resize ns => bv_resize s ns
  | WOp.idle => bv_idle s

/-- Start of `handle_sdl_events`: `init_cache_for_page(&cache, 0, ...)`. -/
def w_init (num_pages : ℕ) (scale : ℚ) : WinState :=
  { cache := (init_cache_for_page 0 scale).1,
    current_page := 0, num_pages := num_pages, current_scale := scale }

/-- All states reachable by the event loop's cache operations. -/
def w_run (num_pages : ℕ) (scale : ℚ) (ops : List WOp) : WinState :=
  ops.foldl (fun s op => (w_step s op).1) (w_init num_pages scale)

/-! ## Event ticks (`part_000` and `part_002` main loops) -/

/-- Events delivered by the windowing layer.  Scale-changing events carry the
recomputed scale (it derives from external window sizes). -/
inductive Ev
  | quit
  | keyPrev
  | keyNext
  | keyFullscreen (ns : ℚ)
  | resize (ns : ℚ)
  | expose
  | other
deriving DecidableEq

/-- One event dispatched by `part_000`'s `handle_sdl_events` switch.
`quit` only clears the loop flag and `other` keys do nothing to this state. -/
def ring_event_step (s : RingState) (e : Ev) : RingState × List ℕ :=
  match e with
  | Ev.quit => (s, [])
  | Ev.keyPrev => let r := key_handler_ring s Dir.prev; (r.1, r.2.1)
  | Ev.keyNext => let r := key_handler_ring s Dir.next; (r.1, r.2.1)
  | Ev.keyFullscreen ns => update_scale_ring s ns
  | Ev.resize ns => update_scale_ring s ns
  | Ev.expose => ({ s with needs_redraw := true }, [])
  | Ev.other => (s, [])

/-- Drain the poll loop: process the pending events in arrival order. -/
def ring_process (s : RingState) (evs : List Ev) : RingState × List ℕ :=
  evs.foldl (fun acc e =>
    let r := ring_event_step acc.1 e
    (r.1, acc.2 ++ r.2)) (s, [])

/-- `update_window_textures` re-blits the current entry to every viewport and
clears the redraw flag (presentation itself is external; the `Bool` in the
tick result records that it happened). -/
def update_window_textures_ring (s : RingState) : RingState :=
  { s with needs_redraw := false }

/-- One iteration of `part_000`'s `handle_sdl_events` loop: drain events,
then either present (when the redraw flag is set) or advance the idle fill.
Result: (state, presented?, pages rendered). -/
def ring_tick (s : RingState) (evs : List Ev) : RingState × Bool × List ℕ :=
  let p := ring_process s evs
  if p.1.needs_redraw then (update_window_textures_ring p.1, true, p.2)
  else
    let idle := idle_update_cache p.1
    (idle.1, false, p.2 ++ idle.2)

/-- One event dispatched by `part_002`'s callbacks. -/
def t2_event_step (s : T2State) (e : Ev) : T2State × List ℕ :=
  match e with
  | Ev.quit => (s, [])
  | Ev.keyPrev => let r := key_callback2 s Dir.prev; (r.1, r.2.1)
  | Ev.keyNext => let r := key_callback2 s Dir.next; (r.1, r.2.1)
  | Ev.keyFullscreen ns => update_scale2 s ns
  | Ev.resize ns => update_scale2 s ns
  | Ev.expose => (s, [])
  | Ev.other => (s, [])

def t2_process (s : T2State) (evs : List Ev) : T2State × List ℕ :=
  evs.foldl (fun acc e =>
    let r := t2_event_step acc.1 e
    (r.1, acc.2 ++ r.2)) (s, [])

/-- One iteration of `part_002`'s `handle_glfw_events` loop: when the cache
is complete, wait for events; otherwise poll and advance the idle fill by
one; then — unconditionally — present whenever the current page has an
entry.  Result: (state, presented?, pages rendered). -/
def tick2 (s : T2State) (evs : List Ev) : T2State × Bool × List ℕ :=
  let p := t2_process s evs
  let step : T2State × List ℕ :=
    if s.cache_complete then (p.1, [])
    else
      let c := cache_one_slide2 p.1
      (c.1, c.2)
  (step.1, (t2get step.1 step.1.current_page).isSome, p.2 ++ step.2)

/-! ## Region extraction (`create_sdl_surface_from_cairo`, `beamview.c`) -/

/-- The cairo source surface: `cairo_image_surface_get_{width,height,stride,data}`.
For `CAIRO_FORMAT_ARGB32` the stride is at least `4 * width` (4 bytes per
pixel); the data buffer holds `height * stride` bytes. -/
structure CairoImage where
  width : ℤ
  height : ℤ
  stride : ℤ
deriving DecidableEq

/-- The SDL surface produced by the copy (dimensions only; its pixel content
is the copied region). -/
structure SdlSurface where
  w : ℤ
  h : ℤ
deriving DecidableEq

/-- `create_sdl_surface_from_cairo`: bounds guard, then a per-row copy.  The
guard is exactly the C condition
`x_offset < 0 || region_width <= 0 || x_offset + region_width > cairo_width`.
(The `SDL_CreateRGBSurface` out-of-memory failure is an external fatal
condition and not modelled.) -/
def create_sdl_surface_from_cairo (img : CairoImage)
    (x_offset region_width img_height : ℤ) : Option SdlSurface :=
  if x_offset < 0 ∨ region_width ≤ 0 ∨ x_offset + region_width > img.width then none
  else some { w := region_width, h := img_height }

/-- The set of byte offsets the per-row `memcpy` loop reads from the cairo
data: for each row `y < img_height` it reads `region_width * 4` bytes
starting at `y * cairo_stride + x_offset * 4`
(`src_row = cairo_data + y * cairo_stride + x_offset * 4;
memcpy(..., src_row, region_width * 4);`). -/
def copy_reads (img : CairoImage) (x_offset region_width img_height : ℤ) : Set ℤ :=
  { o | ∃ y : ℤ, 0 ≤ y ∧ y < img_height ∧
        y * img.stride + x_offset * 4 ≤ o ∧
        o < y * img.stride + x_offset * 4 + region_width * 4 }

/-! ## Invariants -/

/-- Ring tag discipline: every slot is either invalid or holds a non-negative
page whose residue mod 3 is the slot's own index.  This is what makes "at
most one live entry per page index" true for the ring. -/
def ring_tag_ok (c : RingCache) : Prop :=
  ∀ i : Fin 3, (c i).page_number = -1 ∨
    (0 ≤ (c i).page_number ∧ (c i).page_number % 3 = ((i : ℕ) : ℤ))

/-- Sliding-window discipline of `beamview.c`: `cur` (when present) holds the
current page, `prev` its predecessor, `next` its successor. -/
def WInv (s : WinState) : Prop :=
  (∀ e, s.cache.cur = some e → e.page_index = s.current_page) ∧
  (∀ e, s.cache.prev = some e → e.page_index + 1 = s.current_page) ∧
  (∀ e, s.cache.next = some e → e.page_index = s.current_page + 1)

/-! ## Concrete states used in witnesses and counterexamples -/

/-- Ring state over a 2-page document at scale 1: page 1 cached in slot 1,
current page 0 (cached in slot 0), nothing dirty. -/
def ring_jitter_state : RingState :=
  { cache := ring_set
      (ring_set ring_init (cache_slot 0)
        { page_number := 0, cairo_surface := some { page := 0, scale := 1 } })
      (cache_slot 1)
      { page_number := 1, cairo_surface := some { page := 1, scale := 1 } },
    complete := false,
    current_page := 0,
    num_pages := 2,
    current_scale := 1,
    needs_redraw := false }

/-- `part_001` table state: a fully cached single-page document whose fill
cursor is still 0 — exactly the state reached right after the startup
blocking render of page 0 (`main` fills `cache_entries[0]` while
`next_cache_index` is still 0). -/
def stuck_table_state : TableState :=
  { cache_entries := [some { page := 0, scale := 1 }],
    next_cache_index := 0,
    current_page := 0,
    current_scale := 1,
    needs_redraw := false }

/-- `beamview.c` window cache mid-document with both neighbours missing. -/
def bare_window_cache : RenderCache :=
  { prev := none, cur := some { page_index := 1, scale := 1 }, next := none }

/-- `part_002` state: single-page document, page cached, complete flag set. -/
def warmed_t2_state : T2State :=
  { cache_entries := [some { page := 0, scale := 1 }],
    cache_complete := true,
    current_page := 0,
    current_scale := 1 }

/-- `part_001` table state over two pages: page 0 cached, page 1 not. -/
def two_page_table : TableState :=
  { cache_entries := [some { page := 0, scale := 1 }, none],
    next_cache_index := 1,
    current_page := 0,
    current_scale := 1,
    needs_redraw := false }

/-- Ring state over three pages with only page 0 cached. -/
def fresh_ring_state : RingState :=
  { cache := ring_set ring_init (cache_slot 0)
      { page_number := 0, cairo_surface := some { page := 0, scale := 1 } },
    complete := false,
    current_page := 0,
    num_pages := 3,
    current_scale := 1,
    needs_redraw := false }

/-! ## Helper lemmas: region splitter -/

theorem base_split_mul_le (W n : ℕ) : base_split W n * (n - 1) ≤ W :=
  calc base_split W n * (n - 1) ≤ base_split W n * n :=
        Nat.mul_le_mul_left _ (Nat.sub_le n 1)
  _ ≤ W := Nat.div_mul_le_self W n

theorem region_contiguous (W n : ℕ) {i : ℕ} (h : i + 1 < n) :
    region_offset W n (i + 1) = region_offset W n i + region_size W n i := by
  have hi : i ≠ n - 1 := by omega
  simp only [region_offset, region_size, if_neg hi]
  ring

theorem region_sum (W n : ℕ) (hn : 1 ≤ n) :
    ∑ i ∈ Finset.range n, region_size W n i = W := by
  obtain ⟨m, rfl⟩ : ∃ m, n = m + 1 := ⟨n - 1, by omega⟩
  rw [Finset.sum_range_succ]
  have hlast : region_size W (m + 1) m = W - base_split W (m + 1) * m := by
    simp [region_size]
  have hrest : ∑ i ∈ Finset.range m, region_size W (m + 1) i =
      m * base_split W (m + 1) := by
    rw [Finset.sum_congr rfl (fun i hi => ?_), Finset.sum_const, Finset.card_range,
      smul_eq_mul]
    have him : i ≠ m := by
      have := Finset.mem_range.mp hi
      omega
    simp [region_size, him]
  rw [hlast, hrest, mul_comm]
  have hle : base_split W (m + 1) * m ≤ W := by
    have := base_split_mul_le W (m + 1)
    simpa using this
  exact Nat.add_sub_cancel' hle

theorem region_sep (W n : ℕ) {i j : ℕ} (hij : i < j) (hj : j < n) :
    region_offset W n i + region_size W n i ≤ region_offset W n j := by
  have hi : i ≠ n - 1 := by omega
  simp only [region_offset, region_size, if_neg hi]
  calc i * base_split W n + base_split W n = (i + 1) * base_split W n := by ring
  _ ≤ j * base_split W n := Nat.mul_le_mul_right _ (by omega)

theorem region_mem_exists (W n x : ℕ) (hn : 1 ≤ n) (hW : n ≤ W) (hx : x < W) :
    ∃ i, i < n ∧ region_offset W n i ≤ x ∧
      x < region_offset W n i + region_size W n i := by
  have hb : 0 < base_split W n := Nat.div_pos hW (by omega)
  by_cases hx2 : x < base_split W n * (n - 1)
  · have hdiv : x / base_split W n < n - 1 :=
      (Nat.div_lt_iff_lt_mul hb).mpr (by rw [mul_comm]; exact hx2)
    refine ⟨x / base_split W n, ?_, ?_, ?_⟩
    · omega
    · exact Nat.div_mul_le_self x (base_split W n)
    · have hne : x / base_split W n ≠ n - 1 := by omega
      simp only [region_offset, region_size, if_neg hne]
      have h1 := Nat.div_add_mod x (base_split W n)
      have h2 := Nat.mod_lt x hb
      calc x = base_split W n * (x / base_split W n) + x % base_split W n := h1.symm
      _ < base_split W n * (x / base_split W n) + base_split W n :=
          Nat.add_lt_add_left h2 _
      _ = x / base_split W n * base_split W n + base_split W n := by ring
  · refine ⟨n - 1, by omega, ?_, ?_⟩
    · simp only [region_offset]
      rw [mul_comm]
      omega
    · have e1 : region_offset W n (n - 1) = (n - 1) * base_split W n := rfl
      have e2 : region_size W n (n - 1) = W - base_split W n * (n - 1) := by
        rw [region_size, if_pos rfl]
      have hle := base_split_mul_le W n
      rw [e1, e2, mul_comm (n - 1) (base_split W n)]
      omega

theorem region_mem_unique (W n : ℕ) {x i j : ℕ}
    (hi : i < n ∧ region_offset W n i ≤ x ∧
      x < region_offset W n i + region_size W n i)
    (hj : j < n ∧ region_offset W n j ≤ x ∧
      x < region_offset W n j + region_size W n j) : i = j := by
  rcases lt_trichotomy i j with h | h | h
  · exact absurd (region_sep W n h hj.1) (by omega)
  · exact h
  · exact absurd (region_sep W n h hi.1) (by omega)

/-! ## Claim theorems -/

/-- C2.  Region splitter partition: for every full length `W ≥ n` and
viewport count `n ≥ 1`, `base = W / n`; slice `i < n-1` has offset `i*base`
and length `base`; slice `n-1` has offset `base*(n-1)` and length
`W - base*(n-1)`; the slices are contiguous, their lengths sum to `W`, and
they exactly partition `[0, W)` (hence are non-overlapping). -/
theorem C2_region_splitter_partition (W n : ℕ) (hn : 1 ≤ n) (hW : n ≤ W) :
    base_split W n = W / n ∧
    (∀ i, i < n - 1 →
      region_offset W n i = i * (W / n) ∧ region_size W n i = W / n) ∧
    region_offset W n (n - 1) = W / n * (n - 1) ∧
    region_size W n (n - 1) = W - W / n * (n - 1) ∧
    (∀ i, i + 1 < n →
      region_offset W n (i + 1) = region_offset W n i + region_size W n i) ∧
    (∑ i ∈ Finset.range n, region_size W n i) = W ∧
    (∀ x, x < W → ∃! i, i < n ∧ region_offset W n i ≤ x ∧
      x < region_offset W n i + region_size W n i) := by
  refine ⟨rfl, ?_, ?_, ?_, fun i hi => region_contiguous W n hi,
    region_sum W n hn, ?_⟩
  · intro i hi
    have : i ≠ n - 1 := by omega
    simp [region_offset, region_size, this, base_split]
  · simp [region_offset, base_split, mul_comm]
  · simp [region_size, base_split]
  · intro x hx
    obtain ⟨i, hi⟩ := region_mem_exists W n x hn hW hx
    exact ⟨i, hi, fun j hj => region_mem_unique W n hj hi⟩

/-- Witness for C2 at `W = 7`, `n = 2` (slices `(0,3)` and `(3,4)`). -/
theorem C2_region_splitter_partition_witness :
    1 ≤ 2 ∧ 2 ≤ 7 ∧
    ((∑ i ∈ Finset.range 2, region_size 7 2 i) = 7 ∧
      region_size 7 2 0 = 3 ∧ region_size 7 2 1 = 4 ∧ region_offset 7 2 1 = 3) := by
  refine ⟨by norm_num, by norm_num, ?_, by decide, by decide, by decide⟩
  exact (C2_region_splitter_partition 7 2 (by norm_num) (by norm_num)).2.2.2.2.2.1

/-! ## Helper lemmas: ring cache -/

theorem ring_set_self (c : RingCache) (i : Fin 3) (v : RingSlot) :
    ring_set c i v i = v := if_pos rfl

theorem ring_set_other (c : RingCache) {i j : Fin 3} (v : RingSlot) (h : j ≠ i) :
    ring_set c i v j = c j := if_neg h

theorem ring_tag_ok_init : ring_tag_ok ring_init := fun _ => Or.inl rfl

theorem ring_tag_ok_fill {c : RingCache} (h : ring_tag_ok c) (p : ℕ) (sc : ℚ) :
    ring_tag_ok (ring_fill c p sc) := by
  unfold ring_fill
  split
  · exact h
  · intro j
    by_cases hj : j = cache_slot p
    · subst hj
      rw [ring_set_self]
      refine Or.inr ⟨Int.ofNat_nonneg p, ?_⟩
      have : ((cache_slot p : ℕ) : ℤ) = ((p % 3 : ℕ) : ℤ) := rfl
      rw [this]
      push_cast
      rfl
    · rw [ring_set_other _ _ hj]
      exact h j

theorem ring_tag_ok_run (ops : List (ℕ × ℚ)) : ring_tag_ok (ring_run ops) := by
  suffices h : ∀ (l : List (ℕ × ℚ)) (c : RingCache), ring_tag_ok c →
      ring_tag_ok (l.foldl (fun c pq => ring_fill c pq.1 pq.2) c) by
    exact h ops ring_init ring_tag_ok_init
  intro l
  induction l with
  | nil => exact fun c hc => hc
  | cons hd tl ih =>
      intro c hc
      exact ih _ (ring_tag_ok_fill hc hd.1 hd.2)

theorem ring_tag_ok_at_most_one {c : RingCache} (h : ring_tag_ok c) (q : ℕ)
    {i j : Fin 3} (hi : (c i).page_number = (q : ℤ))
    (hj : (c j).page_number = (q : ℤ)) : i = j := by
  have hq : (0 : ℤ) ≤ (q : ℤ) := Int.ofNat_nonneg q
  rcases h i with h1 | ⟨_, h1⟩
  · omega
  rcases h j with h2 | ⟨_, h2⟩
  · omega
  rw [hi] at h1
  rw [hj] at h2
  have : ((i : ℕ) : ℤ) = ((j : ℕ) : ℤ) := by omega
  exact Fin.ext (by exact_mod_cast this)

/-- `page_cache_update` hit path: tag match means `CACHE_REUSED` and no
state change at all. -/
theorem page_cache_update_reused {s : RingState} {p : ℕ}
    (h : (s.cache (cache_slot p)).page_number = (p : ℤ)) :
    page_cache_update s p = (s, CacheResult.reused) := by
  unfold page_cache_update
  rw [if_pos h]

/-- `page_cache_update` miss path reports a render. -/
theorem page_cache_update_updated {s : RingState} {p : ℕ}
    (h : (s.cache (cache_slot p)).page_number ≠ (p : ℤ)) :
    (page_cache_update s p).2 = CacheResult.updated := by
  unfold page_cache_update
  rw [if_neg h]

theorem pcu_renders_le_one (r : CacheResult) : pcu_renders r ≤ 1 := by
  cases r <;> simp [pcu_renders]

/-- After `page_cache_update` on page `p`, the slot for `p` is tagged `p`
(whether the entry was reused or freshly rendered). -/
theorem page_cache_update_tag (s : RingState) (p : ℕ) :
    ((page_cache_update s p).1.cache (cache_slot p)).page_number = (p : ℤ) := by
  unfold page_cache_update
  split
  · assumption
  · simp only [update_cache_status]
    rw [ring_set_self]

/-! ## Helper lemmas: sliding window -/

theorem entry_is_iff {o : Option WEntry} {p : ℕ} :
    entry_is o p = true ↔ ∃ e, o = some e ∧ e.page_index = p := by
  cases o with
  | none => simp [entry_is]
  | some e => simp [entry_is]

theorem WInv_init (np : ℕ) (sc : ℚ) : WInv (w_init np sc) := by
  refine ⟨?_, ?_, ?_⟩ <;> intro e he
  · replace he : some (create_cache_entry_w 0 sc) = some e := he
    cases he
    rfl
  · replace he : (none : Option WEntry) = some e := he
    cases he
  · replace he : (none : Option WEntry) = some e := he
    cases he

theorem WInv_nav {s : WinState} (h : WInv s) (d : Dir) : WInv (bv_nav s d).1 := by
  obtain ⟨hc, hp, hn⟩ := h
  unfold bv_nav
  set n := clamp_nav s.current_page s.num_pages d with hn_def
  by_cases hne : n = s.current_page
  · simp only [if_pos hne]
    exact ⟨hc, hp, hn⟩
  simp only [if_neg hne]
  unfold update_cache_on_page_change
  by_cases h1 : entry_is s.cache.cur n
  · obtain ⟨e, he, hei⟩ := entry_is_iff.mp h1
    exact absurd (hei ▸ hc e he) hne
  simp only [if_neg h1]
  by_cases h2 : entry_is s.cache.next n
  · obtain ⟨e, he, hei⟩ := entry_is_iff.mp h2
    have hcur : n = s.current_page + 1 := hei ▸ hn e he
    simp only [if_pos h2]
    refine ⟨?_, ?_, ?_⟩ <;> intro e' he'
    · replace he' : s.cache.next = some e' := he'
      have := hn e' he'
      show e'.page_index = n
      omega
    · replace he' : s.cache.cur = some e' := he'
      have := hc e' he'
      show e'.page_index + 1 = n
      omega
    · replace he' : (none : Option WEntry) = some e' := he'
      cases he'
  simp only [if_neg h2]
  by_cases h3 : entry_is s.cache.prev n
  · obtain ⟨e, he, hei⟩ := entry_is_iff.mp h3
    have hcur : n + 1 = s.current_page := hei ▸ hp e he
    simp only [if_pos h3]
    refine ⟨?_, ?_, ?_⟩ <;> intro e' he'
    · replace he' : s.cache.prev = some e' := he'
      have := hp e' he'
      show e'.page_index = n
      omega
    · replace he' : (none : Option WEntry) = some e' := he'
      cases he'
    · replace he' : s.cache.cur = some e' := he'
      have := hc e' he'
      show e'.page_index = n + 1
      omega
  simp only [if_neg h3]
  refine ⟨?_, ?_, ?_⟩ <;> intro e' he'
  · replace he' : some (create_cache_entry_w n s.current_scale) = some e' := he'
    cases he'
    rfl
  · replace he' : (none : Option WEntry) = some e' := he'
    cases he'
  · replace he' : (none : Option WEntry) = some e' := he'
    cases he'

theorem update_cache_w_cur_none {c : RenderCache} (cp np : ℕ) (sc : ℚ)
    (h0 : c.cur = none) : update_cache_w c cp np sc = (c, []) := by
  unfold update_cache_w
  rw [if_pos h0]

theorem update_cache_w_cur {c : RenderCache} (cp np : ℕ) (sc : ℚ)
    (h0 : ¬c.cur = none) : (update_cache_w c cp np sc).1.cur = c.cur := by
  unfold update_cache_w
  rw [if_neg h0]

theorem update_cache_w_prev {c : RenderCache} (cp np : ℕ) (sc : ℚ)
    (h0 : ¬c.cur = none) : (update_cache_w c cp np sc).1.prev =
      if 0 < cp ∧ c.prev = none then some (create_cache_entry_w (cp - 1) sc)
      else c.prev := by
  unfold update_cache_w
  rw [if_neg h0]
  by_cases h1 : 0 < cp ∧ c.prev = none <;> simp [h1]

theorem update_cache_w_next {c : RenderCache} (cp np : ℕ) (sc : ℚ)
    (h0 : ¬c.cur = none) : (update_cache_w c cp np sc).1.next =
      if cp < np - 1 ∧ c.next = none then some (create_cache_entry_w (cp + 1) sc)
      else c.next := by
  unfold update_cache_w
  rw [if_neg h0]
  by_cases h1 : cp < np - 1 ∧ c.next = none <;> simp [h1]

theorem WInv_idle {s : WinState} (h : WInv s) : WInv (bv_idle s).1 := by
  obtain ⟨hc, hp, hn⟩ := h
  by_cases h0 : s.cache.cur = none
  · refine ⟨?_, ?_, ?_⟩ <;> intro e he
    · replace he : (update_cache_w s.cache s.current_page s.num_pages
          s.current_scale).1.cur = some e := he
      rw [update_cache_w_cur_none _ _ _ h0] at he
      exact hc e he
    · replace he : (update_cache_w s.cache s.current_page s.num_pages
          s.current_scale).1.prev = some e := he
      rw [update_cache_w_cur_none _ _ _ h0] at he
      exact hp e he
    · replace he : (update_cache_w s.cache s.current_page s.num_pages
          s.current_scale).1.next = some e := he
      rw [update_cache_w_cur_none _ _ _ h0] at he
      exact hn e he
  · refine ⟨?_, ?_, ?_⟩ <;> intro e he
    · replace he : (update_cache_w s.cache s.current_page s.num_pages
          s.current_scale).1.cur = some e := he
      rw [update_cache_w_cur _ _ _ h0] at he
      exact hc e he
    · replace he : (update_cache_w s.cache s.current_page s.num_pages
          s.current_scale).1.prev = some e := he
      rw [update_cache_w_prev _ _ _ h0] at he
      by_cases hP : 0 < s.current_page ∧ s.cache.prev = none
      · rw [if_pos hP] at he
        cases he
        show s.current_page - 1 + 1 = s.current_page
        omega
      · rw [if_neg hP] at he
        exact hp e he
    · replace he : (update_cache_w s.cache s.current_page s.num_pages
          s.current_scale).1.next = some e := he
      rw [update_cache_w_next _ _ _ h0] at he
      by_cases hP : s.current_page < s.num_pages - 1 ∧ s.cache.next = none
      · rw [if_pos hP] at he
        cases he
        rfl
      · rw [if_neg hP] at he
        exact hn e he

theorem WInv_resize {s : WinState} (h : WInv s) (ns : ℚ) : WInv (bv_resize s ns).1 := by
  unfold bv_resize
  by_cases hch : |ns - s.current_scale| > 1/100
  · rw [if_pos hch]
    refine ⟨?_, ?_, ?_⟩ <;> intro e he
    · replace he : some (create_cache_entry_w s.current_page ns) = some e := he
      cases he
      rfl
    · replace he : (none : Option WEntry) = some e := he
      cases he
    · replace he : (none : Option WEntry) = some e := he
      cases he
  · rw [if_neg hch]
    exact h

theorem WInv_step {s : WinState} (h : WInv s) (op : WOp) : WInv (w_step s op).1 := by
  cases op with
  | navPrev => exact WInv_nav h Dir.prev
  | navNext => exact WInv_nav h Dir.next
  | resize ns => exact WInv_resize h ns
  | idle => exact WInv_idle h

theorem WInv_run (np : ℕ) (sc : ℚ) (ops : List WOp) : WInv (w_run np sc ops) := by
  suffices h : ∀ (l : List WOp) (s : WinState), WInv s →
      WInv (l.foldl (fun s op => (w_step s op).1) s) by
    exact h ops (w_init np sc) (WInv_init np sc)
  intro l
  induction l with
  | nil => exact fun s hs => hs
  | cons hd tl ih => exact fun s hs => ih _ (WInv_step hs hd)

/-- C1.  Cache coherence.  Ring variant (`part_000`): a lookup immediately
after `fill(p)` hits with tag `p`; a hit always carries the looked-up page's
tag (a mismatched slot is a miss, never a wrong hit); and across any fill
sequence from the initialised ring, no page index ever has two live slots.
Sliding-window variant (`beamview.c`): across any reachable event-loop
state, no page index is held by two of the three window slots. -/
theorem C1_cache_coherence :
    (∀ (c : RingCache) (p : ℕ) (scale : ℚ), ∃ e,
      ring_lookup (ring_fill c p scale) p = some e ∧ e.page_number = (p : ℤ)) ∧
    (∀ (c : RingCache) (p : ℕ) (e : RingSlot),
      ring_lookup c p = some e → e.page_number = (p : ℤ)) ∧
    (∀ (ops : List (ℕ × ℚ)) (q : ℕ) (i j : Fin 3),
      (ring_run ops i).page_number = (q : ℤ) →
      (ring_run ops j).page_number = (q : ℤ) → i = j) ∧
    (∀ (num_pages : ℕ) (scale : ℚ) (ops : List WOp) (q : ℕ),
      ¬(entry_is (w_run num_pages scale ops).cache.prev q = true ∧
        entry_is (w_run num_pages scale ops).cache.cur q = true) ∧
      ¬(entry_is (w_run num_pages scale ops).cache.prev q = true ∧
        entry_is (w_run num_pages scale ops).cache.next q = true) ∧
      ¬(entry_is (w_run num_pages scale ops).cache.cur q = true ∧
        entry_is (w_run num_pages scale ops).cache.next q = true)) := by
  refine ⟨?_, ?_, ?_, ?_⟩
  · intro c p scale
    by_cases h : (c (cache_slot p)).page_number = (p : ℤ)
    · refine ⟨c (cache_slot p), ?_, h⟩
      simp only [ring_fill, if_pos h, ring_lookup]
    · refine ⟨{ page_number := (p : ℤ),
                cairo_surface := some { page := p, scale := scale } }, ?_, rfl⟩
      simp [ring_fill, if_neg h, ring_lookup, ring_set_self]
  · intro c p e he
    unfold ring_lookup at he
    split at he
    · cases he
      assumption
    · cases he
  · intro ops q i j hi hj
    exact ring_tag_ok_at_most_one (ring_tag_ok_run ops) q hi hj
  · intro np sc ops q
    obtain ⟨hc, hp, hn⟩ := WInv_run np sc ops
    refine ⟨?_, ?_, ?_⟩ <;> rintro ⟨h1, h2⟩
    · obtain ⟨e1, he1, hi1⟩ := entry_is_iff.mp h1
      obtain ⟨e2, he2, hi2⟩ := entry_is_iff.mp h2
      have := hp e1 he1
      have := hc e2 he2
      omega
    · obtain ⟨e1, he1, hi1⟩ := entry_is_iff.mp h1
      obtain ⟨e2, he2, hi2⟩ := entry_is_iff.mp h2
      have := hp e1 he1
      have := hn e2 he2
      omega
    · obtain ⟨e1, he1, hi1⟩ := entry_is_iff.mp h1
      obtain ⟨e2, he2, hi2⟩ := entry_is_iff.mp h2
      have := hc e1 he1
      have := hn e2 he2
      omega

/-- Witness for C1: filling page 2 into the fresh ring and looking it up. -/
theorem C1_cache_coherence_witness :
    ∃ e, ring_lookup (ring_fill ring_init 2 1) 2 = some e ∧
      e.page_number = ((2 : ℕ) : ℤ) :=
  C1_cache_coherence.1 ring_init 2 1

/-- C7.  Fill idempotence (`page_cache_update`, `part_000`): the second of
two consecutive `fill(p)` calls returns `CACHE_REUSED`, changes nothing, and
performs no render; the two calls together perform at most one render, and
exactly one when `p` was a miss beforehand. -/
theorem C7_fill_idempotence (s : RingState) (p : ℕ) :
    (page_cache_update (page_cache_update s p).1 p).1 = (page_cache_update s p).1 ∧
    (page_cache_update (page_cache_update s p).1 p).2 = CacheResult.reused ∧
    pcu_renders (page_cache_update s p).2 +
      pcu_renders (page_cache_update (page_cache_update s p).1 p).2 ≤ 1 ∧
    (ring_lookup s.cache p = none →
      pcu_renders (page_cache_update s p).2 +
        pcu_renders (page_cache_update (page_cache_update s p).1 p).2 = 1) := by
  have htag := page_cache_update_tag s p
  have hsecond := page_cache_update_reused htag
  refine ⟨by rw [hsecond], by rw [hsecond], ?_, ?_⟩
  · rw [hsecond]
    have := pcu_renders_le_one (page_cache_update s p).2
    show pcu_renders (page_cache_update s p).2 + 0 ≤ 1
    omega
  · intro hmiss
    have hne : (s.cache (cache_slot p)).page_number ≠ (p : ℤ) := by
      intro he
      unfold ring_lookup at hmiss
      rw [if_pos he] at hmiss
      cases hmiss
    rw [hsecond, page_cache_update_updated hne]
    rfl

/-- Witness for C7: double fill of page 0 on the fresh ring state. -/
theorem C7_fill_idempotence_witness :
    ring_lookup ring_jitter_state.cache 2 = none ∧
    pcu_renders (page_cache_update ring_jitter_state 2).2 +
      pcu_renders
        (page_cache_update (page_cache_update ring_jitter_state 2).1 2).2 = 1 :=
  ⟨by decide, (C7_fill_idempotence ring_jitter_state 2).2.2.2 (by decide)⟩

/-- C10.  Region extraction bounds safety
(`create_sdl_surface_from_cairo`, `beamview.c`): with an out-of-range region
the function returns NULL before copying anything; otherwise (given the
cairo ARGB32 stride bound `stride ≥ 4*width` and a row count within the
surface, as at both call sites) every byte offset the per-row copy reads —
`region_width*4` bytes per row starting at `y*stride + x_offset*4` — lies
inside the source surface's `height * stride` data bytes. -/
theorem C10_region_extraction_bounds (img : CairoImage)
    (x_offset region_width img_height : ℤ)
    (hstride : 4 * img.width ≤ img.stride) (hheight : img_height ≤ img.height) :
    ((x_offset < 0 ∨ region_width ≤ 0 ∨ x_offset + region_width > img.width) →
      create_sdl_surface_from_cairo img x_offset region_width img_height = none) ∧
    (¬(x_offset < 0 ∨ region_width ≤ 0 ∨ x_offset + region_width > img.width) →
      create_sdl_surface_from_cairo img x_offset region_width img_height =
        some { w := region_width, h := img_height } ∧
      ∀ o ∈ copy_reads img x_offset region_width img_height,
        0 ≤ o ∧ o < img.height * img.stride) := by
  constructor
  · intro h
    unfold create_sdl_surface_from_cairo
    rw [if_pos h]
  · intro h
    have h0 : 0 ≤ x_offset := by omega
    have h1 : 0 < region_width := by omega
    have h2 : x_offset + region_width ≤ img.width := by omega
    have hw1 : 1 ≤ img.width := by omega
    have hs0 : 0 ≤ img.stride := by omega
    refine ⟨by unfold create_sdl_surface_from_cairo; rw [if_neg h], ?_⟩
    rintro o ⟨y, hy0, hy1, hlo, hhi⟩
    have hys : 0 ≤ y * img.stride := mul_nonneg hy0 hs0
    have hstep : y * img.stride + img.stride ≤ img.height * img.stride := by
      have hy2 : y + 1 ≤ img.height := by omega
      have := mul_le_mul_of_nonneg_right hy2 hs0
      rw [add_mul, one_mul] at this
      exact this
    constructor
    · omega
    · omega

/-! ## Helper lemmas: clamped navigation and full-table cache -/

theorem clamp_nav_lt {current num_pages : ℕ} (d : Dir) (hcur : current < num_pages) :
    clamp_nav current num_pages d < num_pages := by
  cases d with
  | prev =>
      show (if 0 < current then current - 1 else current) < num_pages
      split <;> omega
  | next =>
      show (if current < num_pages - 1 then current + 1 else current) < num_pages
      split <;> omega

/-- `page_cache_update` miss path, full description. -/
theorem page_cache_update_miss {s : RingState} {p : ℕ}
    (h : (s.cache (cache_slot p)).page_number ≠ (p : ℤ)) :
    page_cache_update s p =
      (update_cache_status { s with cache := ring_set s.cache (cache_slot p) ⟨(p : ℤ), some ⟨p, s.current_scale⟩⟩ },
       CacheResult.updated) := by
  unfold page_cache_update
  rw [if_neg h]

/-- `pcu_step` on a miss renders exactly that page. -/
theorem pcu_step_miss {s : RingState} {p : ℕ}
    (h : (s.cache (cache_slot p)).page_number ≠ (p : ℤ)) :
    pcu_step s p = ((page_cache_update s p).1, [p]) := by
  unfold pcu_step
  rw [page_cache_update_miss h]

/-- `pcu_step` on a hit renders nothing and changes nothing. -/
theorem pcu_step_hit {s : RingState} {p : ℕ}
    (h : (s.cache (cache_slot p)).page_number = (p : ℤ)) :
    pcu_step s p = (s, []) := by
  unfold pcu_step
  rw [page_cache_update_reused h]

theorem pcu_step_renders_le (s : RingState) (p : ℕ) :
    (pcu_step s p).2.length ≤ 1 := by
  unfold pcu_step
  rcases hp : page_cache_update s p with ⟨t, r⟩
  cases r <;> simp

/-- Looking up `p` right after its slot was written hits that entry. -/
theorem ring_lookup_ring_set_self (c : RingCache) (p : ℕ) (sc : ℚ) :
    ring_lookup (ring_set c (cache_slot p) ⟨(p : ℤ), some ⟨p, sc⟩⟩) p =
      some ⟨(p : ℤ), some ⟨p, sc⟩⟩ := by
  unfold ring_lookup
  rw [ring_set_self, if_pos rfl]

/-- After writing page `p` into an otherwise-invalid ring, every other page
misses (whether or not it aliases `p`'s slot). -/
theorem ring_lookup_ring_set_none (c : RingCache) (p q : ℕ) (sc : ℚ)
    (hq : q ≠ p) (hbase : ∀ i, c i = invalid_slot) :
    ring_lookup (ring_set c (cache_slot p) ⟨(p : ℤ), some ⟨p, sc⟩⟩) q = none := by
  unfold ring_lookup
  by_cases hslot : cache_slot q = cache_slot p
  · rw [hslot, ring_set_self]
    have hne2 : ((p : ℕ) : ℤ) ≠ ((q : ℕ) : ℤ) := by
      intro hcontra
      exact hq ((Nat.cast_injective hcontra).symm)
    rw [if_neg hne2]
  · rw [ring_set_other _ _ hslot, hbase _]
    have hne3 : invalid_slot.page_number ≠ ((q : ℕ) : ℤ) := by
      intro hcontra
      have h2 : (-1 : ℤ) = ((q : ℕ) : ℤ) := hcontra
      omega
    rw [if_neg hne3]

theorem ring_lookup_none_iff {c : RingCache} {p : ℕ} :
    ring_lookup c p = none ↔ (c (cache_slot p)).page_number ≠ (p : ℤ) := by
  unfold ring_lookup
  by_cases h : (c (cache_slot p)).page_number = (p : ℤ) <;> simp [h]

/-- `update_cache_status` touches only the `complete` flag. -/
theorem update_cache_status_fields (s : RingState) :
    (update_cache_status s).cache = s.cache ∧
    (update_cache_status s).current_page = s.current_page ∧
    (update_cache_status s).num_pages = s.num_pages ∧
    (update_cache_status s).current_scale = s.current_scale ∧
    (update_cache_status s).needs_redraw = s.needs_redraw := by
  unfold update_cache_status
  exact ⟨rfl, rfl, rfl, rfl, rfl⟩

/-- C3 counterexample.  In the ring variant (`part_000`) `update_scale`
performs no tolerance check: a resize that recomputes the *same* scale
(difference 0, within the 0.01 tolerance) still destroys every cache entry —
here the cached entry for page 1 is gone afterwards, refuting the claim that
within tolerance every cache entry is left unchanged. -/
theorem C3_counterexample :
    |(1 : ℚ) - ring_jitter_state.current_scale| ≤ 1 / 100 ∧
    (ring_lookup ring_jitter_state.cache 1).isSome = true ∧
    ring_lookup ((update_scale_ring ring_jitter_state 1).1).cache 1 = none := by
  refine ⟨by norm_num [ring_jitter_state], by decide, by decide⟩

/-- C3 amended.  In the full-table variant (`part_001`) the resize contract
holds as claimed: within the 0.01 tolerance the state is returned untouched
with no render; past it, the scale is stored, every entry except a fresh
synchronous render of the current page is invalidated, and the dirty flag is
set.  In the ring variant (`part_000`), `update_scale` has no tolerance
check: every resize event unconditionally invalidates all slots, refills the
current page synchronously, and sets the dirty flag. -/
theorem C3_resize_transition_amended :
    (∀ (s : TableState) (ns : ℚ), |ns - s.current_scale| ≤ 1 / 100 →
      update_scale_table s ns = (s, [])) ∧
    (∀ (s : TableState) (ns : ℚ), |ns - s.current_scale| > 1 / 100 →
      s.current_page < s.cache_entries.length →
      (update_scale_table s ns).1.current_scale = ns ∧
      (update_scale_table s ns).1.needs_redraw = true ∧
      (update_scale_table s ns).1.next_cache_index = 0 ∧
      (update_scale_table s ns).2 = [s.current_page] ∧
      tget (update_scale_table s ns).1 s.current_page =
        some { page := s.current_page, scale := ns } ∧
      (∀ q, q ≠ s.current_page → tget (update_scale_table s ns).1 q = none)) ∧
    (∀ (s : RingState) (ns : ℚ),
      (update_scale_ring s ns).1.current_scale = ns ∧
      (update_scale_ring s ns).1.needs_redraw = true ∧
      (update_scale_ring s ns).2 = [s.current_page] ∧
      (∃ e, ring_lookup (update_scale_ring s ns).1.cache s.current_page = some e ∧
        e.page_number = ((s.current_page : ℕ) : ℤ)) ∧
      (∀ q, q ≠ s.current_page →
        ring_lookup (update_scale_ring s ns).1.cache q = none)) := by
  refine ⟨?_, ?_, ?_⟩
  · intro s ns h
    unfold update_scale_table
    rw [if_neg (not_lt.mpr h)]
  · intro s ns h hcur
    unfold update_scale_table
    rw [if_pos h]
    refine ⟨rfl, rfl, rfl, rfl, ?_, ?_⟩
    · unfold tget
      rw [List.getElem?_set_self (by simp [hcur])]
      rfl
    · intro q hq
      unfold tget
      rw [List.getElem?_set_ne (fun hcontra => hq hcontra.symm),
        List.getElem?_replicate]
      split <;> rfl
  · intro s ns
    have hne : ((({ s with current_scale := ns, cache := fun _ => invalid_slot } : RingState)).cache (cache_slot s.current_page)).page_number ≠ ((s.current_page : ℕ) : ℤ) := by
      intro hcontra
      have h2 : (-1 : ℤ) = ((s.current_page : ℕ) : ℤ) := hcontra
      omega
    have h1 : update_scale_ring s ns = ({ (page_cache_update { s with current_scale := ns, cache := fun _ => invalid_slot } s.current_page).1 with needs_redraw := true }, [s.current_page]) := by
      simp only [update_scale_ring]
      rw [pcu_step_miss hne]
    have h2 : (update_scale_ring s ns).1.cache = ring_set (fun _ => invalid_slot) (cache_slot s.current_page) ⟨((s.current_page : ℕ) : ℤ), some ⟨s.current_page, ns⟩⟩ := by
      rw [h1, page_cache_update_miss hne]
      exact (update_cache_status_fields _).1
    refine ⟨?_, ?_, ?_, ?_, ?_⟩
    · rw [h1, page_cache_update_miss hne]
      exact (update_cache_status_fields _).2.2.2.1
    · rw [h1]
    · rw [h1]
    · exact ⟨⟨((s.current_page : ℕ) : ℤ), some ⟨s.current_page, ns⟩⟩,
        by rw [h2]; exact ring_lookup_ring_set_self _ _ _, rfl⟩
    · intro q hq
      rw [h2]
      exact ring_lookup_ring_set_none _ _ _ _ hq (fun _ => rfl)

/-- Witness for C3: on the full-table variant, a resize recomputing the same
scale (within tolerance) is a strict no-op. -/
theorem C3_resize_transition_amended_witness :
    |(1 : ℚ) - two_page_table.current_scale| ≤ 1 / 100 ∧
    update_scale_table two_page_table 1 = (two_page_table, []) :=
  ⟨by norm_num [two_page_table],
   C3_resize_transition_amended.1 two_page_table 1 (by norm_num [two_page_table])⟩

/-! ## Helper lemmas: key handlers -/

theorem key_handler_table_miss {s : TableState} {d : Dir}
    (hne : clamp_nav s.current_page s.cache_entries.length d ≠ s.current_page)
    (hmiss : tget s (clamp_nav s.current_page s.cache_entries.length d) = none) :
    key_handler_table s d =
      ({ s with cache_entries := s.cache_entries.set (clamp_nav s.current_page s.cache_entries.length d) (some ⟨clamp_nav s.current_page s.cache_entries.length d, s.current_scale⟩), current_page := clamp_nav s.current_page s.cache_entries.length d, needs_redraw := true },
       [clamp_nav s.current_page s.cache_entries.length d], 1) := by
  simp only [key_handler_table]
  rw [if_neg hne, if_neg (by rw [hmiss]; simp)]

theorem key_handler_table_hit {s : TableState} {d : Dir}
    (hne : clamp_nav s.current_page s.cache_entries.length d ≠ s.current_page)
    (hhit : (tget s (clamp_nav s.current_page s.cache_entries.length d)).isSome = true) :
    key_handler_table s d =
      ({ s with current_page := clamp_nav s.current_page s.cache_entries.length d, needs_redraw := true }, [], 0) := by
  simp only [key_handler_table]
  rw [if_neg hne, if_pos hhit]

theorem ring_lookup_isSome_iff {c : RingCache} {p : ℕ} :
    (ring_lookup c p).isSome = true ↔
      (c (cache_slot p)).page_number = (p : ℤ) := by
  unfold ring_lookup
  by_cases h : (c (cache_slot p)).page_number = (p : ℤ) <;> simp [h]

theorem key_handler_ring_miss {s : RingState} {d : Dir}
    (hne : clamp_nav s.current_page s.num_pages d ≠ s.current_page)
    (hmiss : (s.cache (cache_slot (clamp_nav s.current_page s.num_pages d))).page_number ≠ ((clamp_nav s.current_page s.num_pages d : ℕ) : ℤ)) :
    key_handler_ring s d =
      (update_cache_status { (page_cache_update s (clamp_nav s.current_page s.num_pages d)).1 with current_page := clamp_nav s.current_page s.num_pages d, needs_redraw := true },
       [clamp_nav s.current_page s.num_pages d], 1) := by
  simp only [key_handler_ring]
  rw [if_neg hne, page_cache_update_miss hmiss]

theorem key_handler_ring_hit {s : RingState} {d : Dir}
    (hne : clamp_nav s.current_page s.num_pages d ≠ s.current_page)
    (hhit : (s.cache (cache_slot (clamp_nav s.current_page s.num_pages d))).page_number = ((clamp_nav s.current_page s.num_pages d : ℕ) : ℤ)) :
    key_handler_ring s d =
      (update_cache_status { s with current_page := clamp_nav s.current_page s.num_pages d, needs_redraw := true }, [], 0) := by
  simp only [key_handler_ring]
  rw [if_neg hne, page_cache_update_reused hhit]

/-- C4.  Cache-miss-on-navigation fallback, in both the full-table
(`part_001` `key_handler`) and ring (`part_000` `key_handler`) variants: a
valid navigation to an uncached target performs exactly one synchronous
blocking render of the target and prints exactly one warning, and the
navigation still succeeds — the current page becomes the target, its entry
is in the cache, and the dirty flag is set so it is displayed; a navigation
to a cached target performs no render and emits no warning. -/
theorem C4_navigation_miss_fallback :
    (∀ (s : TableState) (d : Dir) (t : ℕ),
      t = clamp_nav s.current_page s.cache_entries.length d →
      t ≠ s.current_page → s.current_page < s.cache_entries.length →
      (tget s t = none →
        (key_handler_table s d).2.1 = [t] ∧
        (key_handler_table s d).2.2 = 1 ∧
        (key_handler_table s d).1.current_page = t ∧
        (key_handler_table s d).1.needs_redraw = true ∧
        tget (key_handler_table s d).1 t = some ⟨t, s.current_scale⟩) ∧
      ((tget s t).isSome = true →
        (key_handler_table s d).2.1 = [] ∧
        (key_handler_table s d).2.2 = 0 ∧
        (key_handler_table s d).1.current_page = t ∧
        (key_handler_table s d).1.needs_redraw = true ∧
        tget (key_handler_table s d).1 t = tget s t)) ∧
    (∀ (s : RingState) (d : Dir) (t : ℕ),
      t = clamp_nav s.current_page s.num_pages d →
      t ≠ s.current_page →
      (ring_lookup s.cache t = none →
        (key_handler_ring s d).2.1 = [t] ∧
        (key_handler_ring s d).2.2 = 1 ∧
        (key_handler_ring s d).1.current_page = t ∧
        (key_handler_ring s d).1.needs_redraw = true ∧
        (∃ e, ring_lookup (key_handler_ring s d).1.cache t = some e ∧
          e.page_number = ((t : ℕ) : ℤ))) ∧
      ((ring_lookup s.cache t).isSome = true →
        (key_handler_ring s d).2.1 = [] ∧
        (key_handler_ring s d).2.2 = 0 ∧
        (key_handler_ring s d).1.current_page = t ∧
        (key_handler_ring s d).1.needs_redraw = true)) := by
  constructor
  · intro s d t ht hne hcur
    subst ht
    constructor
    · intro hmiss
      rw [key_handler_table_miss hne hmiss]
      refine ⟨rfl, rfl, rfl, rfl, ?_⟩
      unfold tget
      rw [List.getElem?_set_self]
      · rfl
      · exact clamp_nav_lt d hcur
    · intro hhit
      rw [key_handler_table_hit hne hhit]
      exact ⟨rfl, rfl, rfl, rfl, rfl⟩
  · intro s d t ht hne
    subst ht
    constructor
    · intro hmiss
      have htag := ring_lookup_none_iff.mp hmiss
      rw [key_handler_ring_miss hne htag]
      refine ⟨rfl, rfl, rfl, rfl, ?_⟩
      refine ⟨⟨((clamp_nav s.current_page s.num_pages d : ℕ) : ℤ),
        some ⟨clamp_nav s.current_page s.num_pages d, s.current_scale⟩⟩, ?_, rfl⟩
      have hcache : (update_cache_status { (page_cache_update s (clamp_nav s.current_page s.num_pages d)).1 with current_page := clamp_nav s.current_page s.num_pages d, needs_redraw := true }).cache = ring_set s.cache (cache_slot (clamp_nav s.current_page s.num_pages d)) ⟨((clamp_nav s.current_page s.num_pages d : ℕ) : ℤ), some ⟨clamp_nav s.current_page s.num_pages d, s.current_scale⟩⟩ := by
        rw [page_cache_update_miss htag]
        rfl
      rw [hcache]
      unfold ring_lookup
      rw [ring_set_self, if_pos rfl]
    · intro hhit
      have htag := ring_lookup_isSome_iff.mp hhit
      rw [key_handler_ring_hit hne htag]
      exact ⟨rfl, rfl, rfl, rfl⟩

/-- Witness for C4: navigating next from page 0 of a two-page table whose
page 1 is uncached renders page 1 once, warns once, and succeeds. -/
theorem C4_navigation_miss_fallback_witness :
    tget two_page_table 1 = none ∧
    ((key_handler_table two_page_table Dir.next).2.1 = [1] ∧
     (key_handler_table two_page_table Dir.next).2.2 = 1 ∧
     (key_handler_table two_page_table Dir.next).1.current_page = 1 ∧
     (key_handler_table two_page_table Dir.next).1.needs_redraw = true ∧
     tget (key_handler_table two_page_table Dir.next).1 1 =
       some ⟨1, two_page_table.current_scale⟩) :=
  ⟨by decide,
   (C4_navigation_miss_fallback.1 two_page_table Dir.next 1 (by decide) (by decide)
     (by decide)).1 (by decide)⟩

/-- C8.  Navigation clamping: previous at page 0 and next at the last page
are complete no-ops (state unchanged, no render, no warning) in both the
full-table (`part_001`) and sliding-window (`beamview.c`) handlers, and the
invariant `current_page < num_pages` is preserved by every navigation. -/
theorem C8_navigation_clamping :
    (∀ s : TableState, s.current_page = 0 →
      key_handler_table s Dir.prev = (s, [], 0)) ∧
    (∀ s : TableState, s.current_page = s.cache_entries.length - 1 →
      key_handler_table s Dir.next = (s, [], 0)) ∧
    (∀ s : WinState, s.current_page = 0 → bv_nav s Dir.prev = (s, [])) ∧
    (∀ s : WinState, s.current_page = s.num_pages - 1 →
      bv_nav s Dir.next = (s, [])) ∧
    (∀ (s : TableState) (d : Dir), s.current_page < s.cache_entries.length →
      (key_handler_table s d).1.current_page <
        (key_handler_table s d).1.cache_entries.length) ∧
    (∀ (s : WinState) (d : Dir), s.current_page < s.num_pages →
      (bv_nav s d).1.current_page < (bv_nav s d).1.num_pages) := by
  refine ⟨?_, ?_, ?_, ?_, ?_, ?_⟩
  · intro s h
    have hcl : clamp_nav s.current_page s.cache_entries.length Dir.prev =
        s.current_page := by
      show (if 0 < s.current_page then s.current_page - 1 else s.current_page) =
        s.current_page
      rw [h]
      simp
    simp only [key_handler_table]
    rw [if_pos hcl]
  · intro s h
    have hcl : clamp_nav s.current_page s.cache_entries.length Dir.next =
        s.current_page := by
      show (if s.current_page < s.cache_entries.length - 1 then s.current_page + 1
        else s.current_page) = s.current_page
      rw [if_neg (by omega)]
    simp only [key_handler_table]
    rw [if_pos hcl]
  · intro s h
    have hcl : clamp_nav s.current_page s.num_pages Dir.prev = s.current_page := by
      show (if 0 < s.current_page then s.current_page - 1 else s.current_page) =
        s.current_page
      rw [h]
      simp
    simp only [bv_nav]
    rw [if_pos hcl]
  · intro s h
    have hcl : clamp_nav s.current_page s.num_pages Dir.next = s.current_page := by
      show (if s.current_page < s.num_pages - 1 then s.current_page + 1
        else s.current_page) = s.current_page
      rw [if_neg (by omega)]
    simp only [bv_nav]
    rw [if_pos hcl]
  · intro s d hcur
    by_cases hne : clamp_nav s.current_page s.cache_entries.length d = s.current_page
    · simp only [key_handler_table]
      rw [if_pos hne]
      exact hcur
    · by_cases hhit : (tget s (clamp_nav s.current_page s.cache_entries.length d)).isSome = true
      · rw [key_handler_table_hit hne hhit]
        exact clamp_nav_lt d hcur
      · have hmiss := Option.not_isSome_iff_eq_none.mp hhit
        rw [key_handler_table_miss hne hmiss]
        show clamp_nav s.current_page s.cache_entries.length d <
          (s.cache_entries.set (clamp_nav s.current_page s.cache_entries.length d) _).length
        rw [List.length_set]
        exact clamp_nav_lt d hcur
  · intro s d hcur
    by_cases hne : clamp_nav s.current_page s.num_pages d = s.current_page
    · simp only [bv_nav]
      rw [if_pos hne]
      exact hcur
    · simp only [bv_nav]
      rw [if_neg hne]
      exact clamp_nav_lt d hcur

/-- Witness for C8: previous-page at page 0 of the single-page table state
is a no-op. -/
theorem C8_navigation_clamping_witness :
    stuck_table_state.current_page = 0 ∧
    key_handler_table stuck_table_state Dir.prev = (stuck_table_state, [], 0) :=
  ⟨rfl, C8_navigation_clamping.1 stuck_table_state rfl⟩

/-- Witness for C10: a 4×2 surface with stride 16, extracting the 2-wide
region at offset 1 over both rows. -/
theorem C10_region_extraction_bounds_witness :
    4 * (4 : ℤ) ≤ 16 ∧ (2 : ℤ) ≤ 2 ∧
    ¬((1 : ℤ) < 0 ∨ (2 : ℤ) ≤ 0 ∨ (1 : ℤ) + 2 > 4) ∧
    (create_sdl_surface_from_cairo { width := 4, height := 2, stride := 16 } 1 2 2 =
        some { w := 2, h := 2 } ∧
      ∀ o ∈ copy_reads { width := 4, height := 2, stride := 16 } 1 2 2,
        0 ≤ o ∧ o < 2 * 16) :=
  ⟨by norm_num, by norm_num, by norm_num,
    (C10_region_extraction_bounds { width := 4, height := 2, stride := 16 } 1 2 2
      (by norm_num) (by norm_num)).2 (by norm_num)⟩

/-! ## Helper lemmas: idle fill -/

theorem find_missing_eq_none {l : List (Option Surface)}
    (h : l.countP (fun o => o.isNone) = 0) : find_missing l = none := by
  induction l with
  | nil => rfl
  | cons hd tl ih =>
      cases hd with
      | none => simp [List.countP_cons] at h
      | some a =>
          simp only [List.countP_cons, Option.isNone_some, Bool.false_eq_true,
            if_false, Nat.add_zero] at h
          show (find_missing tl).map (· + 1) = none
          rw [ih h, Option.map_none']

theorem find_missing_none_countP {l : List (Option Surface)}
    (h : find_missing l = none) : l.countP (fun o => o.isNone) = 0 := by
  induction l with
  | nil => rfl
  | cons hd tl ih =>
      cases hd with
      | none => exact absurd h (by simp [find_missing])
      | some a =>
          replace h : (find_missing tl).map (· + 1) = none := h
          rw [Option.map_eq_none'] at h
          simp [List.countP_cons, ih h]

theorem find_missing_get {l : List (Option Surface)} {i : ℕ}
    (h : find_missing l = some i) : l[i]? = some none := by
  induction l generalizing i with
  | nil => cases h
  | cons hd tl ih =>
      cases hd with
      | none =>
          replace h : some 0 = some i := h
          cases h
          simp
      | some a =>
          replace h : (find_missing tl).map (· + 1) = some i := h
          rw [Option.map_eq_some'] at h
          obtain ⟨j, hj, rfl⟩ := h
          rw [List.getElem?_cons_succ]
          exact ih hj

theorem countP_set_some {l : List (Option Surface)} {i : ℕ}
    (h : l[i]? = some none) (e : Surface) :
    (l.set i (some e)).countP (fun o => o.isNone) + 1 =
      l.countP (fun o => o.isNone) := by
  induction l generalizing i with
  | nil => simp at h
  | cons hd tl ih =>
      cases i with
      | zero =>
          rw [List.getElem?_cons_zero] at h
          injection h with h2
          subst h2
          simp [List.countP_cons]
      | succ j =>
          rw [List.getElem?_cons_succ] at h
          show ((hd :: tl.set j (some e)).countP fun o => o.isNone) + 1 = _
          rw [List.countP_cons, List.countP_cons]
          have := ih h
          omega

theorem scan_tail_get {l : List (Option Surface)} (h : scan_tail l < l.length) :
    l[scan_tail l]? = some none := by
  induction l with
  | nil => simp at h
  | cons hd tl ih =>
      cases hd with
      | none => simp [scan_tail]
      | some a =>
          show (some a :: tl)[scan_tail tl + 1]? = some none
          rw [List.getElem?_cons_succ]
          apply ih
          have hlen : scan_tail (some a :: tl) = scan_tail tl + 1 := rfl
          rw [hlen, List.length_cons] at h
          omega

theorem scan_next_get {l : List (Option Surface)} {i : ℕ}
    (h : scan_next l i < l.length) : l[scan_next l i]? = some none := by
  unfold scan_next at h ⊢
  have hdl : scan_tail (l.drop i) < (l.drop i).length := by
    rw [List.length_drop]
    omega
  have hg := scan_tail_get hdl
  rw [List.getElem?_drop] at hg
  exact hg

theorem cache_one_slide2_complete {s : T2State} (h : s.cache_complete = true) :
    cache_one_slide2 s = (s, []) := by
  unfold cache_one_slide2
  rw [if_pos h]

theorem iter2_of_complete {s : T2State} (h : s.cache_complete = true) :
    ∀ n, iter2 n s = s := by
  intro n
  induction n with
  | zero => rfl
  | succ k ih =>
      show iter2 k (cache_one_slide2 s).1 = s
      rw [cache_one_slide2_complete h]
      exact ih

theorem iter2_complete : ∀ (m : ℕ) (s : T2State),
    s.cache_entries.countP (fun o => o.isNone) = m →
    (iter2 (m + 1) s).cache_complete = true := by
  intro m
  induction m with
  | zero =>
      intro s hm
      by_cases hc : s.cache_complete = true
      · rw [iter2_of_complete hc]
        exact hc
      · show ((cache_one_slide2 s).1).cache_complete = true
        have hfm := find_missing_eq_none hm
        unfold cache_one_slide2
        rw [if_neg hc, hfm]
  | succ k ih =>
      intro s hm
      by_cases hc : s.cache_complete = true
      · rw [iter2_of_complete hc]
        exact hc
      · show (iter2 (k + 1) (cache_one_slide2 s).1).cache_complete = true
        rcases hf : find_missing s.cache_entries with _ | i
        · exact absurd (find_missing_none_countP hf) (by omega)
        · apply ih
          have hget := find_missing_get hf
          have hset := countP_set_some hget ⟨i, s.current_scale⟩
          have hentries : (cache_one_slide2 s).1.cache_entries =
              s.cache_entries.set i (some ⟨i, s.current_scale⟩) := by
            unfold cache_one_slide2
            rw [if_neg hc, hf]
          rw [hentries]
          omega

/-- C5 counterexample.  `beamview.c`'s idle `update_cache`, invoked once on
page 1 of a 3-page document with both neighbours missing, renders *two*
pages (0 and 2) — more than the claimed at-most-one per invocation. -/
theorem C5_counterexample :
    (update_cache_w bare_window_cache 1 3 1).2 = [0, 2] ∧
    ¬((update_cache_w bare_window_cache 1 3 1).2.length ≤ 1) := by
  refine ⟨by decide, by decide⟩

/-- C5 amended.  The `cache_one_slide` idle-fill operations (`part_001`,
`part_002`) perform at most one render per invocation; the neighbour-fill
idle operations (`update_cache` in `beamview.c`, `idle_update_cache` in
`part_000`) perform at most one render per missing neighbour, hence at most
two per invocation. -/
theorem C5_single_increment_amended :
    (∀ s : TableState, (cache_one_slide s).2.length ≤ 1) ∧
    (∀ s : T2State, (cache_one_slide2 s).2.length ≤ 1) ∧
    (∀ (c : RenderCache) (cp np : ℕ) (sc : ℚ),
      (update_cache_w c cp np sc).2.length ≤ 2) ∧
    (∀ s : RingState, (idle_update_cache s).2.length ≤ 2) := by
  refine ⟨?_, ?_, ?_, ?_⟩
  · intro s
    simp only [cache_one_slide]
    split
    · simp
    · split <;> simp
  · intro s
    unfold cache_one_slide2
    split
    · simp
    · rcases hf : find_missing s.cache_entries with _ | i <;> simp [hf]
  · intro c cp np sc
    unfold update_cache_w
    split
    · simp
    · by_cases h1 : 0 < cp ∧ c.prev = none <;>
        by_cases h2 : cp < np - 1 ∧ c.next = none <;> simp [h1, h2]
  · intro s
    unfold idle_update_cache
    split
    · simp
    · simp only [List.length_append]
      refine le_trans (Nat.add_le_add ?_ ?_) (by norm_num : (1 : ℕ) + 1 ≤ 2)
      · split
        · exact pcu_step_renders_le _ _
        · simp
      · split
        · exact pcu_step_renders_le _ _
        · simp

/-- Witness for C5 (amended): one idle fill on the two-page table renders at
most one page. -/
theorem C5_single_increment_amended_witness :
    (cache_one_slide two_page_table).2.length ≤ 1 :=
  C5_single_increment_amended.1 two_page_table

/-- C6 counterexample.  `part_001` over a single-page document (`K = 1`)
whose page was cached by the startup blocking render: `cache_complete` is
false, yet `cache_one_slide` is a no-op fixed point — so after `K = 1`
invocations (indeed after any number) "complete" is never reported, refuting
the at-most-`K`-invocations termination claim. -/
theorem C6_counterexample :
    table_complete stuck_table_state = false ∧
    cache_one_slide stuck_table_state = (stuck_table_state, []) ∧
    table_complete (cache_one_slide stuck_table_state).1 = false := by
  refine ⟨by decide, by decide, by decide⟩

/-- C6 amended.  In `part_002`, starting from any cache state with `m`
uncached pages, `cache_one_slide` latches the complete flag within `m + 1`
invocations (`m ≤ K`, so at most `K + 1`); no invocation ever renders an
already-cached page, and once complete is reported every further invocation
is a strict no-op.  In `part_001`, no invocation renders an already-cached
page and once the cursor reports complete every further invocation is a
no-op — but the complete report itself can fail to ever arrive when the
pages at or beyond the cursor were cached by navigation. -/
theorem C6_idle_fill_termination_amended :
    (∀ s : T2State,
      (iter2 (s.cache_entries.countP (fun o => o.isNone) + 1) s).cache_complete =
        true) ∧
    (∀ s : T2State,
      s.cache_entries.countP (fun o => o.isNone) ≤ s.cache_entries.length) ∧
    (∀ (s : T2State) (p : ℕ), p ∈ (cache_one_slide2 s).2 → t2get s p = none) ∧
    (∀ s : T2State, s.cache_complete = true → cache_one_slide2 s = (s, [])) ∧
    (∀ (s : TableState) (p : ℕ), p ∈ (cache_one_slide s).2 → tget s p = none) ∧
    (∀ s : TableState, table_complete s = true → cache_one_slide s = (s, [])) := by
  refine ⟨?_, ?_, ?_, ?_, ?_, ?_⟩
  · intro s
    exact iter2_complete _ s rfl
  · intro s
    exact List.countP_le_length _
  · intro s p hp
    by_cases hc : s.cache_complete = true
    · rw [cache_one_slide2_complete hc] at hp
      simp at hp
    · rcases hf : find_missing s.cache_entries with _ | i
      · have hstep : cache_one_slide2 s = ({ s with cache_complete := true }, []) := by
          unfold cache_one_slide2
          rw [if_neg hc, hf]
        rw [hstep] at hp
        simp at hp
      · have hstep : (cache_one_slide2 s).2 = [i] := by
          unfold cache_one_slide2
          rw [if_neg hc, hf]
        rw [hstep, List.mem_singleton] at hp
        subst hp
        unfold t2get
        rw [find_missing_get hf]
        rfl
  · intro s hc
    exact cache_one_slide2_complete hc
  · intro s p hp
    simp only [cache_one_slide] at hp
    by_cases hc : table_complete s = true
    · rw [if_pos hc] at hp
      simp at hp
    · rw [if_neg hc] at hp
      by_cases hlt : scan_next s.cache_entries s.next_cache_index <
          s.cache_entries.length
      · rw [if_pos hlt] at hp
        rw [List.mem_singleton] at hp
        subst hp
        unfold tget
        rw [scan_next_get hlt]
        rfl
      · rw [if_neg hlt] at hp
        simp at hp
  · intro s hc
    unfold cache_one_slide
    rw [if_pos hc]

/-- Witness for C6 (amended): once `part_002` reports complete, a further
idle invocation is a strict no-op. -/
theorem C6_idle_fill_termination_amended_witness :
    warmed_t2_state.cache_complete = true ∧
    cache_one_slide2 warmed_t2_state = (warmed_t2_state, []) :=
  ⟨rfl, C6_idle_fill_termination_amended.2.2.2.1 warmed_t2_state rfl⟩

/-- C9 counterexample.  `part_002` re-presents unconditionally: on an
input-free tick of a fully warmed, unchanged state the presentation fires,
and fires again on the very next input-free tick — there is no dirty gating
at all in this variant. -/
theorem C9_counterexample :
    (tick2 warmed_t2_state []).2.1 = true ∧
    (tick2 warmed_t2_state []).1 = warmed_t2_state ∧
    (tick2 (tick2 warmed_t2_state []).1 []).2.1 = true := by
  refine ⟨by decide, by decide, by decide⟩

/-- C9 amended.  `part_000`'s loop is dirty-gated exactly as the claim
describes: a tick presents iff the redraw flag is set after the tick's
events are drained, presenting clears the flag, and an input-free tick with
a clear flag performs exactly one `idle_update_cache` step instead (when the
cache is complete that step does nothing, matching the blocking wait).
`part_002`'s loop instead presents on every iteration in which the current
page has an entry — with a complete cache an input-free tick leaves the
state unchanged yet still presents. -/
theorem C9_conditional_presentation_amended :
    (∀ (s : RingState) (evs : List Ev),
      (ring_tick s evs).2.1 = (ring_process s evs).1.needs_redraw) ∧
    (∀ (s : RingState) (evs : List Ev), (ring_tick s evs).2.1 = true →
      (ring_tick s evs).1.needs_redraw = false) ∧
    (∀ s : RingState, s.needs_redraw = false →
      (ring_tick s []).2.1 = false ∧
      (ring_tick s []).1 = (idle_update_cache s).1 ∧
      (ring_tick s []).2.2 = (idle_update_cache s).2) ∧
    (∀ s : T2State, s.cache_complete = true →
      tick2 s [] = (s, (t2get s s.current_page).isSome, [])) := by
  refine ⟨?_, ?_, ?_, ?_⟩
  · intro s evs
    simp only [ring_tick]
    by_cases h : (ring_process s evs).1.needs_redraw = true
    · rw [if_pos h, h]
    · have hb : (ring_process s evs).1.needs_redraw = false := by
        cases hx : (ring_process s evs).1.needs_redraw
        · rfl
        · exact absurd hx h
      rw [if_neg h, hb]
  · intro s evs h
    simp only [ring_tick] at h ⊢
    by_cases hx : (ring_process s evs).1.needs_redraw = true
    · rw [if_pos hx]
      rfl
    · rw [if_neg hx] at h
      simp at h
  · intro s h
    have hproc : ring_process s [] = (s, []) := rfl
    simp only [ring_tick, hproc]
    rw [if_neg (by rw [h]; simp)]
    exact ⟨rfl, rfl, rfl⟩
  · intro s h
    simp only [tick2]
    rw [show t2_process s [] = (s, []) from rfl, if_pos h]
    rfl

/-- Witness for C9 (amended): an input-free tick of a clear-flag ring state
performs exactly the idle-fill step and does not present. -/
theorem C9_conditional_presentation_amended_witness :
    fresh_ring_state.needs_redraw = false ∧
    ((ring_tick fresh_ring_state []).2.1 = false ∧
     (ring_tick fresh_ring_state []).1 = (idle_update_cache fresh_ring_state).1 ∧
     (ring_tick fresh_ring_state []).2.2 = (idle_update_cache fresh_ring_state).2) :=
  ⟨rfl, C9_conditional_presentation_amended.2.2.1 fresh_ring_state rfl⟩

end Beamview
